import Mathlib

/-!
# Verification of the batch translation engine

Shallow embedding of the core of the `translate-tags` batch translation
system (classifier, batcher, retry executor, sequential scheduler with
fatal-halt, rate limiter, response validation, result reconciler),
with theorems checking the specified properties against the code.

The JavaScript sources embedded here are `batchProcessor.js`
(rate-limiter / fatal-error revision) and `geminiTranslator.js`.
JSON values are modelled by `JsValue`; JavaScript objects are modelled
as association lists in key-insertion order (object keys are unique, so
an association list with nodup keys is a faithful model); `console.log`
output is dropped; `console.warn` signals that the claims mention are
modelled as explicit warning lists.
-/

/-- A JSON/JavaScript value as far as the translation pipeline inspects it:
`null`, `undefined`, a string, or anything else (numbers, arrays, nested
objects), which the pipeline only ever passes through. -/
inductive JsValue where
  | null : JsValue
  | undefined : JsValue
  | str : String → JsValue
  | miscVal : JsValue
deriving Repr, DecidableEq

/-- `needsTranslation` from `batchProcessor.js`: a value needs translation
iff it is `null`, `undefined`, the empty string, or a blank string. -/
def needsTranslation : JsValue → Bool
  | JsValue.null => true
  | JsValue.undefined => true
  | JsValue.str s => s == "" || s.trim == ""
  | JsValue.miscVal => false

/-- Result of `filterEntriesForTranslation`: the three output maps and the
original key order.  The `stats` object of the source only records the
lengths of these lists and is recovered from them. -/
structure FilterResult where
  toTranslate : List (String × JsValue)
  alreadyTranslated : List (String × JsValue)
  excludedByKey : List (String × JsValue)
  originalKeys : List String
deriving Repr, DecidableEq

/-- The `forEach` body of `filterEntriesForTranslation`, routing each entry
to exactly one of the three lists in input order.  The key-exclusion
predicate (`shouldExcludeKey` in the source, a battery of regexes the spec
treats as a pluggable policy predicate) is a parameter. -/
def filterGo (excludeKey : String → Bool) (skipTranslated enableKeyFiltering : Bool) :
    List (String × JsValue) →
      List (String × JsValue) × List (String × JsValue) × List (String × JsValue)
  | [] => ([], [], [])
  | (k, v) :: rest =>
    let (t, a, e) := filterGo excludeKey skipTranslated enableKeyFiltering rest
    if enableKeyFiltering && excludeKey k then
      (t, a, (k, v) :: e)
    else if skipTranslated && !needsTranslation v then
      (t, (k, v) :: a, e)
    else
      ((k, v) :: t, a, e)

/-- `filterEntriesForTranslation` from `batchProcessor.js` (the classifier):
partitions the input entries into `toTranslate`, `alreadyTranslated` and
`excludedByKey`, and records the original key order. -/
def filterEntriesForTranslation (excludeKey : String → Bool)
    (skipTranslated enableKeyFiltering : Bool)
    (jsonData : List (String × JsValue)) : FilterResult :=
  let (t, a, e) := filterGo excludeKey skipTranslated enableKeyFiltering jsonData
  { toTranslate := t
    alreadyTranslated := a
    excludedByKey := e
    originalKeys := jsonData.map Prod.fst }

section ClassifierLemmas

variable (excludeKey : String → Bool) (st ekf : Bool)

/-- Predicate deciding the `excludedByKey` branch of the classifier. -/
def exclPred (e : String × JsValue) : Bool := ekf && excludeKey e.1

/-- Predicate deciding the `alreadyTranslated` branch of the classifier. -/
def alreadyPred (e : String × JsValue) : Bool :=
  !(ekf && excludeKey e.1) && (st && !needsTranslation e.2)

/-- Predicate deciding the `toTranslate` branch of the classifier. -/
def toTranslatePred (e : String × JsValue) : Bool :=
  !(ekf && excludeKey e.1) && !(st && !needsTranslation e.2)

theorem filterGo_eq_filters (data : List (String × JsValue)) :
    filterGo excludeKey st ekf data =
      (data.filter (toTranslatePred excludeKey st ekf),
       data.filter (alreadyPred excludeKey st ekf),
       data.filter (exclPred excludeKey ekf)) := by
  induction data with
  | nil => rfl
  | cons hd tl ih =>
    obtain ⟨k, v⟩ := hd
    simp only [filterGo, ih, List.filter_cons, toTranslatePred, alreadyPred, exclPred]
    by_cases h1 : (ekf && excludeKey k) = true
    · simp [h1]
    · by_cases h2 : (st && !needsTranslation v) = true
      · simp [h1, h2]
      · simp [h1, h2]

/-- A disjoint three-way split of a list by the classifier predicates is a
permutation of the list itself. -/
theorem filter_three_perm (data : List (String × JsValue)) :
    (data.filter (exclPred excludeKey ekf) ++ data.filter (alreadyPred excludeKey st ekf) ++
        data.filter (toTranslatePred excludeKey st ekf)).Perm data := by
  have hA : data.filter (alreadyPred excludeKey st ekf)
      = (data.filter (fun e => !exclPred excludeKey ekf e)).filter
          (fun e => st && !needsTranslation e.2) := by
    rw [List.filter_filter]
    refine List.filter_congr ?_
    intro a _
    simp [alreadyPred, exclPred, Bool.and_comm]
  have hT : data.filter (toTranslatePred excludeKey st ekf)
      = (data.filter (fun e => !exclPred excludeKey ekf e)).filter
          (fun e => !(st && !needsTranslation e.2)) := by
    rw [List.filter_filter]
    refine List.filter_congr ?_
    intro a _
    simp [toTranslatePred, exclPred, Bool.and_comm]
  have h2 := List.filter_append_perm (fun e => st && !needsTranslation e.2)
      (data.filter (fun e => !exclPred excludeKey ekf e))
  have h1 := List.filter_append_perm (exclPred excludeKey ekf) data
  rw [hA, hT, List.append_assoc]
  exact ((h2.append_left (data.filter (exclPred excludeKey ekf))).trans h1)

end ClassifierLemmas

/-- Exactly one of three propositions holds. -/
def ExactlyOneOf (p q r : Prop) : Prop :=
  (p ∧ ¬ q ∧ ¬ r) ∨ (¬ p ∧ q ∧ ¬ r) ∨ (¬ p ∧ ¬ q ∧ r)

/-- C5. For every input collection and policy flags (and any exclusion
predicate), the classifier `filterEntriesForTranslation` is a total
partition: the three output lists together are a permutation of the input
(no duplicates, no omissions, no foreign entries), and every input entry
appears in exactly one of `toTranslate`, `alreadyTranslated`,
`excludedByKey`. -/
theorem classifier_total_partition (excludeKey : String → Bool) (st ekf : Bool)
    (data : List (String × JsValue)) :
    ((filterEntriesForTranslation excludeKey st ekf data).excludedByKey ++
        (filterEntriesForTranslation excludeKey st ekf data).alreadyTranslated ++
        (filterEntriesForTranslation excludeKey st ekf data).toTranslate).Perm data ∧
    (∀ e, e ∈ data →
      ExactlyOneOf (e ∈ (filterEntriesForTranslation excludeKey st ekf data).toTranslate)
        (e ∈ (filterEntriesForTranslation excludeKey st ekf data).alreadyTranslated)
        (e ∈ (filterEntriesForTranslation excludeKey st ekf data).excludedByKey)) ∧
    (∀ e, (e ∈ (filterEntriesForTranslation excludeKey st ekf data).toTranslate ∨
        e ∈ (filterEntriesForTranslation excludeKey st ekf data).alreadyTranslated ∨
        e ∈ (filterEntriesForTranslation excludeKey st ekf data).excludedByKey) → e ∈ data) := by
  have hsplit := filterGo_eq_filters excludeKey st ekf data
  have hT : (filterEntriesForTranslation excludeKey st ekf data).toTranslate =
      data.filter (toTranslatePred excludeKey st ekf) := by
    simp [filterEntriesForTranslation, hsplit]
  have hA : (filterEntriesForTranslation excludeKey st ekf data).alreadyTranslated =
      data.filter (alreadyPred excludeKey st ekf) := by
    simp [filterEntriesForTranslation, hsplit]
  have hE : (filterEntriesForTranslation excludeKey st ekf data).excludedByKey =
      data.filter (exclPred excludeKey ekf) := by
    simp [filterEntriesForTranslation, hsplit]
  refine ⟨?_, ?_, ?_⟩
  · rw [hT, hA, hE]
    exact filter_three_perm excludeKey st ekf data
  · intro e he
    rw [hT, hA, hE]
    by_cases h1 : (ekf && excludeKey e.1) = true
    · refine Or.inr (Or.inr ⟨?_, ?_, ?_⟩)
      · simp [List.mem_filter, toTranslatePred, h1]
      · simp [List.mem_filter, alreadyPred, h1]
      · simp [List.mem_filter, exclPred, h1, he]
    · by_cases h2 : (st && !needsTranslation e.2) = true
      · refine Or.inr (Or.inl ⟨?_, ?_, ?_⟩)
        · simp [List.mem_filter, toTranslatePred, h2]
        · simp only [Bool.not_eq_true] at h1
          simp [List.mem_filter, alreadyPred, h1, h2, he]
        · simp [List.mem_filter, exclPred, h1]
      · refine Or.inl ⟨?_, ?_, ?_⟩
        · simp only [Bool.not_eq_true] at h1 h2
          simp [List.mem_filter, toTranslatePred, h1, h2, he]
        · simp [List.mem_filter, alreadyPred, h2]
        · simp [List.mem_filter, exclPred, h1]
  · intro e he
    rw [hT, hA, hE] at he
    rcases he with h | h | h <;> exact (List.mem_filter.mp h).1

/-! ## Reconciler: `combineResults` -/

/-- The `stats` record produced by `combineResults`. -/
structure CombineStats where
  excludedByKey : Nat
  alreadyTranslated : Nat
  newTranslations : Nat
  total : Nat
deriving Repr, DecidableEq

/-- Lookup in the spread-merged object
`{...excludedByKey, ...alreadyTranslated, ...newTranslations}`:
later spreads overwrite earlier ones, so `newTranslations` wins, then
`alreadyTranslated`, then `excludedByKey`. -/
def mergedLookup {α : Type} (newTranslations alreadyTranslated excludedByKey : List (String × α))
    (k : String) : Option α :=
  match newTranslations.lookup k with
  | some v => some v
  | none =>
    match alreadyTranslated.lookup k with
    | some v => some v
    | none => excludedByKey.lookup k

/-- `combineResults` from `batchProcessor.js` (the reconciler): spread-merge
the three maps, then rebuild the output by iterating `originalKeys` and
keeping a key exactly when the merged object has it.  Polymorphic in the
value type, as the JavaScript is untyped. -/
def combineResults {α : Type} (newTranslations alreadyTranslated excludedByKey : List (String × α))
    (originalKeys : List String) : List (String × α) × CombineStats :=
  let combinedResult := originalKeys.filterMap (fun k =>
    (mergedLookup newTranslations alreadyTranslated excludedByKey k).map (fun v => (k, v)))
  (combinedResult,
    { excludedByKey := excludedByKey.length
      alreadyTranslated := alreadyTranslated.length
      newTranslations := newTranslations.length
      total := combinedResult.length })

theorem map_fst_filterMap_lookup {α : Type} (f : String → Option α) (ks : List String) :
    (ks.filterMap (fun k => (f k).map (fun v => (k, v)))).map Prod.fst
      = ks.filter (fun k => (f k).isSome) := by
  induction ks with
  | nil => rfl
  | cons k ks ih =>
    cases h : f k <;> simp [List.filterMap_cons, List.filter_cons, h, ih]

theorem mergedLookup_isSome {α : Type}
    (newTranslations alreadyTranslated excludedByKey : List (String × α)) (k : String) :
    (mergedLookup newTranslations alreadyTranslated excludedByKey k).isSome
      = ((newTranslations.lookup k).isSome || (alreadyTranslated.lookup k).isSome ||
          (excludedByKey.lookup k).isSome) := by
  unfold mergedLookup
  cases newTranslations.lookup k <;> cases alreadyTranslated.lookup k <;>
    cases excludedByKey.lookup k <;> rfl

/-- C4. For every combination of excluded, already-satisfied and newly
translated maps and every (duplicate-free, as JavaScript object keys are)
original key order, the reconciler's merged output has exactly the keys of
`originalKeys` that some source provides, in exactly the original order:
its key sequence is the sublist of `originalKeys` selected by "some source
provides this key", independent of the insertion order of the intermediate
merged map. -/
theorem reconciler_preserves_original_order {α : Type}
    (newTranslations alreadyTranslated excludedByKey : List (String × α))
    (originalKeys : List String) (hnd : originalKeys.Nodup) :
    ((combineResults newTranslations alreadyTranslated excludedByKey originalKeys).1.map
        Prod.fst)
      = originalKeys.filter (fun k =>
          (newTranslations.lookup k).isSome || (alreadyTranslated.lookup k).isSome ||
            (excludedByKey.lookup k).isSome) := by
  unfold combineResults
  rw [map_fst_filterMap_lookup]
  refine List.filter_congr ?_
  intro k _
  exact mergedLookup_isSome newTranslations alreadyTranslated excludedByKey k

/-- Witness for C4 at a concrete input: key `"b"` is provided by no source
and is dropped; the others appear in original order. -/
theorem reconciler_preserves_original_order_witness :
    ((combineResults [("c", "T3")] [("a", "T1")] [("d", "T4")]
        ["a", "b", "c", "d"]).1.map Prod.fst) = ["a", "c", "d"] := by
  have h := reconciler_preserves_original_order
    [("c", "T3")] [("a", "T1")] [("d", "T4")] ["a", "b", "c", "d"] (by decide)
  rw [h]
  rfl

/-! ## Batcher: `createBatches`

The `for (let i = 0; i < entries.length; i += batchSize)` loop of
`createBatches` is modelled with explicit fuel, since for
`batchSize ≤ 0` on a non-empty input the index never advances and the
loop never terminates.  `none` means the loop ran out of fuel, i.e. the
call has not returned within that many iterations. -/

/-- One batch object produced by `createBatches`. -/
structure JsBatch where
  id : Int
  data : List (String × JsValue)
  entriesCount : Nat
  startIndex : Int
  endIndex : Int
deriving Repr, DecidableEq

/-- The batch pushed at loop index `i`: entries `slice(i, i + batchSize)`
with id `Math.floor(i / batchSize) + 1` (for the indices `0 ≤ i` and
`1 ≤ batchSize` actually reached when batches are produced). -/
def mkJsBatch (entries : List (String × JsValue)) (batchSize i : Int) : JsBatch :=
  let batchEntries := (entries.drop i.toNat).take batchSize.toNat
  { id := i.fdiv batchSize + 1
    data := batchEntries
    entriesCount := batchEntries.length
    startIndex := i
    endIndex := min (i + batchSize - 1) ((entries.length : Int) - 1) }

/-- The batching loop with fuel: each iteration slices one batch and
advances the index by `batchSize`. -/
def createBatchesLoop (entries : List (String × JsValue)) (batchSize : Int) :
    Nat → Int → Option (List JsBatch)
  | 0, i => if i < (entries.length : Int) then none else some []
  | fuel + 1, i =>
    if i < (entries.length : Int) then
      (createBatchesLoop entries batchSize fuel (i + batchSize)).map
        (fun rest => mkJsBatch entries batchSize i :: rest)
    else some []

/-- `createBatches` from `batchProcessor.js`: empty input short-circuits to
an empty batch list; otherwise the slicing loop runs from index 0. -/
def createBatchesFuel (fuel : Nat) (entries : List (String × JsValue)) (batchSize : Int) :
    Option (List JsBatch) :=
  if entries.length = 0 then some []
  else createBatchesLoop entries batchSize fuel 0

/-- The call `createBatches(entries, batchSize)` returns (in any finite
number of loop iterations). -/
def createBatchesTerminatesOn (entries : List (String × JsValue)) (batchSize : Int) : Prop :=
  ∃ fuel, (createBatchesFuel fuel entries batchSize).isSome = true

theorem createBatchesLoop_isSome_of_le (entries : List (String × JsValue)) (batchSize : Int)
    (hbs : 1 ≤ batchSize) :
    ∀ fuel : Nat, ∀ i : Int, (entries.length : Int) ≤ i + (fuel : Int) * batchSize →
      (createBatchesLoop entries batchSize fuel i).isSome = true := by
  intro fuel
  induction fuel with
  | zero =>
    intro i hi
    simp only [Nat.cast_zero, zero_mul, add_zero] at hi
    simp [createBatchesLoop, not_lt.mpr hi]
  | succ fuel ih =>
    intro i hi
    by_cases hlt : i < (entries.length : Int)
    · have hstep : (entries.length : Int) ≤ (i + batchSize) + (fuel : Int) * batchSize := by
        have hexp : ((fuel + 1 : Nat) : Int) * batchSize
            = (fuel : Int) * batchSize + batchSize := by push_cast; ring
        rw [hexp] at hi
        linarith
      have := ih (i + batchSize) hstep
      simp [createBatchesLoop, hlt, Option.isSome_map]
      exact this
    · simp [createBatchesLoop, hlt]

theorem createBatchesLoop_none_of_nonpos (entries : List (String × JsValue)) (batchSize : Int)
    (hbs : batchSize ≤ 0) (hlen : 1 ≤ entries.length) :
    ∀ fuel : Nat, ∀ i : Int, i ≤ 0 → createBatchesLoop entries batchSize fuel i = none := by
  intro fuel
  induction fuel with
  | zero =>
    intro i hi
    have hlt : i < (entries.length : Int) := by
      have : (1 : Int) ≤ (entries.length : Int) := by exact_mod_cast hlen
      linarith
    simp [createBatchesLoop, hlt]
  | succ fuel ih =>
    intro i hi
    have hlt : i < (entries.length : Int) := by
      have : (1 : Int) ≤ (entries.length : Int) := by exact_mod_cast hlen
      linarith
    have := ih (i + batchSize) (by linarith)
    simp [createBatchesLoop, hlt, this]

/-- C10. The `createBatches` loop terminates for every input under the
precondition `batchSize ≥ 1` — the index strictly increases by `batchSize`
each iteration, and `entries.length` iterations of fuel always suffice —
and the precondition is essential: for `batchSize ≤ 0` and any non-empty
input the index never advances past the entry count, so the loop never
terminates, whatever the fuel. -/
theorem createBatches_total_iff_positive (entries : List (String × JsValue)) (batchSize : Int) :
    (1 ≤ batchSize → (createBatchesFuel entries.length entries batchSize).isSome = true) ∧
    (batchSize ≤ 0 → entries ≠ [] →
      ∀ fuel, createBatchesFuel fuel entries batchSize = none) := by
  constructor
  · intro hbs
    by_cases hlen : entries.length = 0
    · simp [createBatchesFuel, hlen]
    · have hbound : (entries.length : Int) ≤ 0 + (entries.length : Int) * batchSize := by
        have : (entries.length : Int) ≤ (entries.length : Int) * batchSize :=
          le_mul_of_one_le_right (by positivity) hbs
        linarith
      have := createBatchesLoop_isSome_of_le entries batchSize hbs entries.length 0 hbound
      simp [createBatchesFuel, hlen, this]
  · intro hbs hne fuel
    have hlen : 1 ≤ entries.length := List.length_pos.mpr hne
    have hloop := createBatchesLoop_none_of_nonpos entries batchSize hbs hlen fuel 0 le_rfl
    simp only [createBatchesFuel]
    rw [if_neg (by omega)]
    exact hloop

/-- Witness for C10: `batchSize = 1` terminates on a one-entry input;
`batchSize = 0` never does. -/
theorem createBatches_total_iff_positive_witness :
    (createBatchesFuel 1 [("A", JsValue.str "")] 1).isSome = true ∧
    createBatchesFuel 7 [("A", JsValue.str "")] 0 = none := by
  refine ⟨?_, ?_⟩
  · have h := (createBatches_total_iff_positive [("A", JsValue.str "")] 1).1 (by decide)
    simpa using h
  · exact (createBatches_total_iff_positive [("A", JsValue.str "")] 0).2 (by decide)
      (by decide) 7

/-- C3 (amended): `createBatches` performs no batch-size validation and
never raises a `ConfigurationError`: for `batchSize ≥ 1` it returns a
batch list and raises nothing, while for `batchSize < 1` on a non-empty
input the call never returns at all (the slicing loop never terminates),
so in particular no error is surfaced. -/
theorem createBatches_never_raises (entries : List (String × JsValue)) (batchSize : Int) :
    (1 ≤ batchSize →
      ∃ fuel batches, createBatchesFuel fuel entries batchSize = some batches) ∧
    (batchSize < 1 → entries ≠ [] → ¬ createBatchesTerminatesOn entries batchSize) := by
  constructor
  · intro hbs
    by_cases hlen : entries.length = 0
    · exact ⟨0, [], by simp [createBatchesFuel, hlen]⟩
    · have hbound : (entries.length : Int) ≤ 0 + (entries.length : Int) * batchSize := by
        have : (entries.length : Int) ≤ (entries.length : Int) * batchSize :=
          le_mul_of_one_le_right (by positivity) hbs
        linarith
      have hsome := createBatchesLoop_isSome_of_le entries batchSize hbs entries.length 0 hbound
      obtain ⟨batches, hb⟩ := Option.isSome_iff_exists.mp hsome
      exact ⟨entries.length, batches, by simp [createBatchesFuel, hlen, hb]⟩
  · intro hbs hne ⟨fuel, hsome⟩
    have hlen : 1 ≤ entries.length := List.length_pos.mpr hne
    have hloop := createBatchesLoop_none_of_nonpos entries batchSize (by omega) hlen fuel 0 le_rfl
    rw [createBatchesFuel, if_neg (by omega), hloop] at hsome
    simp at hsome

/-- Witness for C3's amended statement at concrete inputs. -/
theorem createBatches_never_raises_witness :
    (∃ fuel batches,
      createBatchesFuel fuel [("x", JsValue.null), ("y", JsValue.null), ("z", JsValue.null)] 2
        = some batches) ∧
    ¬ createBatchesTerminatesOn [("x", JsValue.null)] (-1) := by
  refine ⟨?_, ?_⟩
  · exact (createBatches_never_raises
      [("x", JsValue.null), ("y", JsValue.null), ("z", JsValue.null)] 2).1 (by decide)
  · exact (createBatches_never_raises [("x", JsValue.null)] (-1)).2 (by decide) (by decide)

/-- C3 counterexample: the claim says a call with `batchSize < 1` fails
with a `ConfigurationError` surfaced immediately.  In the code there is no
validation at all: with `batchSize = 0` on the non-empty input
`{"A": ""}` the call never returns a result in any number of loop
iterations — it hangs instead of failing, so no error is ever surfaced. -/
theorem createBatches_no_config_error_counterexample :
    ¬ createBatchesTerminatesOn [("A", JsValue.str "")] 0 := by
  rintro ⟨fuel, hsome⟩
  have hloop := createBatchesLoop_none_of_nonpos [("A", JsValue.str "")] 0 (by decide)
    (by decide) fuel 0 le_rfl
  rw [createBatchesFuel, if_neg (by decide), hloop] at hsome
  simp at hsome

/-! ## Error classification: `handleGeminiError` -/

/-- The processed error object built by `handleGeminiError`: a message plus
the `isFatal` / `shouldStop` flags attached to the thrown error. -/
structure JsError where
  message : String
  isFatal : Bool
  shouldStop : Bool
deriving Repr, DecidableEq

/-- JavaScript `String.prototype.includes`. -/
def strContains (s sub : String) : Bool := decide (sub.data <:+: s.data)

/-- `handleGeminiError` from `geminiTranslator.js`: classifies an error by
substring tags of its message.  Rate-limit (`RATE_LIMIT_EXCEEDED`/`429`),
quota, invalid-key and model-not-found errors are marked fatal and
stop-processing; content-filter and internal-server errors only get their
message rewritten; everything else passes through unflagged. -/
def handleGeminiError (message : String) : JsError :=
  if strContains message "RATE_LIMIT_EXCEEDED" || strContains message "429" then
    { message := "Límite de tasa excedido en la API de Gemini",
      isFatal := true, shouldStop := true }
  else if strContains message "QUOTA_EXCEEDED" then
    { message := "Cuota de la API de Gemini excedida", isFatal := true, shouldStop := true }
  else if strContains message "INVALID_API_KEY" then
    { message := "API key de Gemini inválida", isFatal := true, shouldStop := true }
  else if strContains message "CONTENT_FILTER" then
    { message := "Contenido bloqueado por los filtros de seguridad de Gemini",
      isFatal := false, shouldStop := false }
  else if strContains message "MODEL_NOT_FOUND" then
    { message := "Modelo de Gemini no encontrado", isFatal := true, shouldStop := true }
  else if strContains message "INTERNAL" then
    { message := "Error interno del servidor de Gemini", isFatal := false, shouldStop := false }
  else
    { message := message, isFatal := false, shouldStop := false }

/-! ## Batch Executor: `processBatchWithRetry`

The remote call `translateBatch` is an external collaborator; one run of
the executor is modelled against a `respond` oracle giving, for each
1-based attempt number, either translated data or a (classified) thrown
error.  The trace records the returned result object, the backoff waits
performed (`setTimeout` durations, in ms), and the attempts on which the
remote call was actually invoked. -/

/-- Outcome of one `translateBatch` call. -/
inductive CallOutcome where
  | ok (translatedData : List (String × String))
  | err (e : JsError)
deriving Repr, DecidableEq

/-- The result object returned by `processBatchWithRetry` (union of the
fields of its three return shapes; absent fields default). -/
structure BatchResult where
  success : Bool
  batchId : Int
  data : List (String × String) := []
  error : Option String := none
  attempts : Nat := 0
  isFatal : Bool := false
  shouldStopProcessing : Bool := false
  skipped : Bool := false
deriving Repr, DecidableEq

/-- Execution trace of one `processBatchWithRetry` run.  `result = none`
models the `TypeError` the source would hit reading `lastError.message`
when `maxRetries = 0` (the loop body never runs). -/
structure RetryTrace where
  result : Option BatchResult
  waits : List Nat
  calls : List Nat
deriving Repr, DecidableEq

/-- The `for (let attempt = 1; attempt <= maxRetries; attempt++)` loop of
`processBatchWithRetry`, modelled by structural recursion over the list of
attempt numbers still to run: invoke the call, return on success, return
immediately on a `shouldStop` error, otherwise back off
`retryDelay * 2^(attempt-1)` ms when attempts remain (`attempt < maxRetries`)
and retry; when the attempt list is exhausted, report failure from the last
error (`none` models the `TypeError` of reading `lastError.message` when the
loop body never ran). -/
def retryLoop (batchId : Int) (respond : Nat → CallOutcome) (maxRetries retryDelay : Nat) :
    List Nat → Option JsError → List Nat → List Nat → RetryTrace
  | [], lastError, waits, calls =>
    { result := lastError.map (fun e =>
        { success := false, batchId := batchId, error := some e.message,
          attempts := maxRetries, isFatal := e.isFatal, shouldStopProcessing := e.shouldStop }),
      waits := waits, calls := calls }
  | attempt :: rest, _, waits, calls =>
    match respond attempt with
    | CallOutcome.ok translatedData =>
      { result := some { success := true, batchId := batchId,
                         data := translatedData, attempts := attempt },
        waits := waits, calls := calls ++ [attempt] }
    | CallOutcome.err e =>
      if e.shouldStop then
        { result := some { success := false, batchId := batchId, error := some e.message,
                           attempts := attempt, isFatal := true,
                           shouldStopProcessing := true },
          waits := waits, calls := calls ++ [attempt] }
      else if attempt < maxRetries then
        retryLoop batchId respond maxRetries retryDelay rest (some e)
          (waits ++ [retryDelay * 2 ^ (attempt - 1)]) (calls ++ [attempt])
      else
        retryLoop batchId respond maxRetries retryDelay rest (some e)
          waits (calls ++ [attempt])

/-- `processBatchWithRetry` from `batchProcessor.js`: run the attempt loop
over attempts `1, 2, ..., maxRetries` with no last error yet. -/
def processBatchWithRetry (batch : JsBatch) (respond : Nat → CallOutcome)
    (maxRetries retryDelay : Nat) : RetryTrace :=
  retryLoop batch.id respond maxRetries retryDelay (List.range' 1 maxRetries) none [] []

/-- Shape of every terminating executor trace starting at attempt `a`
(with the attempts `a, ..., maxRetries` still to run): the backoff waits
are exactly `retryDelay * 2^(i-1)` for the attempts `i` before the final
one, the remote call is invoked exactly on the attempts up to the final
one, and the reported attempt count is bounded by `maxRetries`. -/
theorem retryLoop_trace_shape (batchId : Int) (respond : Nat → CallOutcome)
    (maxRetries retryDelay : Nat) :
    ∀ k a lastError waits calls, a + k = maxRetries + 1 → 1 ≤ a →
      ∀ res, (retryLoop batchId respond maxRetries retryDelay (List.range' a k)
          lastError waits calls).result = some res →
        (retryLoop batchId respond maxRetries retryDelay (List.range' a k)
            lastError waits calls).waits
          = waits ++ (List.range' a (res.attempts - a)).map
              (fun i => retryDelay * 2 ^ (i - 1)) ∧
        (retryLoop batchId respond maxRetries retryDelay (List.range' a k)
            lastError waits calls).calls
          = calls ++ List.range' a (res.attempts + 1 - a) ∧
        res.attempts ≤ maxRetries ∧
        a ≤ res.attempts + 1 ∧
        (a ≤ maxRetries → a ≤ res.attempts) := by
  intro k
  induction k with
  | zero =>
    intro a lastError waits calls hk h1 res hres
    have ha : a = maxRetries + 1 := by omega
    cases lastError with
    | none =>
      simp [retryLoop] at hres
    | some e =>
      simp only [List.range'_zero, retryLoop, Option.map_some', Option.some.injEq] at hres ⊢
      have hat : res.attempts = maxRetries := by rw [← hres]
      have h0 : res.attempts - a = 0 := by omega
      have h1' : res.attempts + 1 - a = 0 := by omega
      rw [h0, h1', List.range'_zero]
      refine ⟨by simp, by simp, by omega, by omega, by intro hx; exfalso; omega⟩
  | succ k ih =>
    intro a lastError waits calls hk h1 res hres
    rw [List.range'_succ] at hres ⊢
    cases hr : respond a with
    | ok d =>
      simp only [retryLoop, hr, Option.some.injEq] at hres ⊢
      have hat : res.attempts = a := by rw [← hres]
      have h0 : res.attempts - a = 0 := by omega
      have h1' : res.attempts + 1 - a = 1 := by omega
      rw [h0, h1', List.range'_zero, List.range'_one]
      refine ⟨by simp, by simp, by omega, by omega, by omega⟩
    | err e =>
      by_cases hs : e.shouldStop = true
      · simp only [retryLoop, hr, hs, if_true, Option.some.injEq] at hres ⊢
        have hat : res.attempts = a := by rw [← hres]
        have h0 : res.attempts - a = 0 := by omega
        have h1' : res.attempts + 1 - a = 1 := by omega
        rw [h0, h1', List.range'_zero, List.range'_one]
        refine ⟨by simp, by simp, by omega, by omega, by omega⟩
      · have hs' : e.shouldStop = false := by simpa using hs
        by_cases hlt : a < maxRetries
        · simp only [retryLoop, hr, hs', Bool.false_eq_true, if_false, if_pos hlt] at hres ⊢
          obtain ⟨hw, hc, hm, hb, hlb⟩ := ih (a + 1) (some e)
            (waits ++ [retryDelay * 2 ^ (a - 1)]) (calls ++ [a]) (by omega) (by omega) res hres
          have hge : a + 1 ≤ res.attempts := hlb (by omega)
          refine ⟨?_, ?_, hm, by omega, by omega⟩
          · rw [hw]
            have hsplit : res.attempts - a = (res.attempts - (a + 1)) + 1 := by omega
            rw [hsplit, List.range'_succ]
            simp
          · rw [hc]
            have hsplit : res.attempts + 1 - a = (res.attempts + 1 - (a + 1)) + 1 := by omega
            rw [hsplit, List.range'_succ]
            simp
        · simp only [retryLoop, hr, hs', Bool.false_eq_true, if_false, if_neg hlt] at hres ⊢
          have ha : a = maxRetries := by omega
          obtain ⟨hw, hc, hm, hb, _⟩ := ih (a + 1) (some e) waits (calls ++ [a])
            (by omega) (by omega) res hres
          have hm' : res.attempts = maxRetries := by omega
          refine ⟨?_, ?_, hm, by omega, by omega⟩
          · rw [hw]
            simp [hm', ha]
          · rw [hc]
            have hone : res.attempts + 1 - a = 1 := by omega
            have hzero : res.attempts + 1 - (a + 1) = 0 := by omega
            rw [hone, hzero, List.range'_one]
            simp

/-- C6. In the Batch Executor's 1-based retry loop, for every
terminating run: the wait before retrying after the non-fatal failure on
attempt `i` is `retryDelay * 2^(i-1)` (the wait list is exactly
`[retryDelay * 2^0, retryDelay * 2^1, ...]` over the non-final attempts),
there is no trailing wait after the final attempt (the wait list has
`attemptsUsed - 1` entries), and for positive `retryDelay` the waits grow
strictly with attempt number. -/
theorem backoff_exponential_growth (batch : JsBatch) (respond : Nat → CallOutcome)
    (maxRetries retryDelay : Nat) (res : BatchResult)
    (hres : (processBatchWithRetry batch respond maxRetries retryDelay).result = some res) :
    (processBatchWithRetry batch respond maxRetries retryDelay).waits
        = (List.range (res.attempts - 1)).map (fun j => retryDelay * 2 ^ j) ∧
    (processBatchWithRetry batch respond maxRetries retryDelay).waits.length
        = res.attempts - 1 ∧
    (1 ≤ retryDelay →
      (processBatchWithRetry batch respond maxRetries retryDelay).waits.Pairwise (· < ·)) := by
  obtain ⟨hw, -, -, -, -⟩ := retryLoop_trace_shape batch.id respond maxRetries retryDelay
    maxRetries 1 none [] [] (by omega) le_rfl res hres
  have hmap : (List.range' 1 (res.attempts - 1)).map (fun i => retryDelay * 2 ^ (i - 1))
      = (List.range (res.attempts - 1)).map (fun j => retryDelay * 2 ^ j) := by
    rw [List.range'_eq_map_range, List.map_map]
    refine List.map_congr_left ?_
    intro j _
    simp
  have hgoal : (processBatchWithRetry batch respond maxRetries retryDelay).waits
      = (List.range (res.attempts - 1)).map (fun j => retryDelay * 2 ^ j) := by
    unfold processBatchWithRetry
    rw [hw]
    simpa using hmap
  refine ⟨hgoal, by rw [hgoal]; simp, ?_⟩
  intro hrd
  rw [hgoal, List.pairwise_map]
  refine (List.pairwise_lt_range _).imp ?_
  intro i j hij
  exact mul_lt_mul_of_pos_left (Nat.pow_lt_pow_of_lt (by norm_num) hij) (by omega)

/-- A batch used by the concrete executor scenarios. -/
def retryDemoBatch : JsBatch :=
  { id := 1, data := [("Beef", JsValue.str "")], entriesCount := 1,
    startIndex := 0, endIndex := 0 }

/-- Witness for C6: three attempts all failing with a transient internal
server error under `maxRetries = 3`, `retryDelay = 2000` wait
`2000 * 2^0 = 2000` ms and then `2000 * 2^1 = 4000` ms, with no wait after
the final attempt, and the waits grow strictly. -/
theorem backoff_exponential_growth_witness :
    (processBatchWithRetry retryDemoBatch
        (fun _ => CallOutcome.err (handleGeminiError "INTERNAL failure")) 3 2000).waits
      = [2000, 4000] ∧
    (processBatchWithRetry retryDemoBatch
        (fun _ => CallOutcome.err (handleGeminiError "INTERNAL failure")) 3 2000).waits.Pairwise
      (· < ·) := by
  have h := backoff_exponential_growth retryDemoBatch
    (fun _ => CallOutcome.err (handleGeminiError "INTERNAL failure")) 3 2000
    { success := false, batchId := 1, error := some "Error interno del servidor de Gemini",
      attempts := 3, isFatal := false, shouldStopProcessing := false }
    (by decide)
  exact ⟨by rw [h.1]; decide, h.2.2 (by decide)⟩

/-- If attempts `a..k-1` fail with non-stop errors and attempt `k` throws a
`shouldStop` error, the loop returns the fatal failure of attempt `k`. -/
theorem retryLoop_fatal (batchId : Int) (respond : Nat → CallOutcome)
    (maxRetries retryDelay : Nat) (k : Nat) (e : JsError)
    (hs : e.shouldStop = true) (hk : respond k = CallOutcome.err e) :
    ∀ m a lastError waits calls, a + m = maxRetries + 1 → 1 ≤ a → a ≤ k → k ≤ maxRetries →
      (∀ i, a ≤ i → i < k → ∃ e', respond i = CallOutcome.err e' ∧ e'.shouldStop = false) →
      (retryLoop batchId respond maxRetries retryDelay (List.range' a m)
          lastError waits calls).result
        = some { success := false, batchId := batchId, error := some e.message,
                 attempts := k, isFatal := true, shouldStopProcessing := true } := by
  intro m
  induction m with
  | zero =>
    intro a lastError waits calls hm h1 hak hkm hpre
    exfalso
    omega
  | succ m ih =>
    intro a lastError waits calls hm h1 hak hkm hpre
    rw [List.range'_succ]
    by_cases hae : a = k
    · subst hae
      simp [retryLoop, hk, hs]
    · have halt : a < k := by omega
      obtain ⟨e', hre', hse'⟩ := hpre a le_rfl halt
      have hlt : a < maxRetries := by omega
      simp only [retryLoop, hre', hse', Bool.false_eq_true, if_false, if_pos hlt]
      exact ih (a + 1) (some e') _ _ (by omega) (by omega) (by omega) hkm
        (fun i hi1 hi2 => hpre i (by omega) hi2)

/-- C7. If the remote call fails with an error classified as fatal
(`shouldStop`) on attempt `k` (after non-fatal failures on the earlier
attempts, if any), the executor returns `Failed` with `fatal = true` and
`attemptsUsed = k` immediately: the call is invoked exactly on attempts
`1..k` (no further attempts) and no backoff wait follows the fatal attempt
(only the `k-1` waits of the earlier failures occurred). -/
theorem fatal_error_returns_immediately (batch : JsBatch) (respond : Nat → CallOutcome)
    (maxRetries retryDelay k : Nat) (e : JsError)
    (hk1 : 1 ≤ k) (hkm : k ≤ maxRetries)
    (hpre : ∀ i, 1 ≤ i → i < k → ∃ e', respond i = CallOutcome.err e' ∧ e'.shouldStop = false)
    (hf : respond k = CallOutcome.err e) (hs : e.shouldStop = true) :
    (processBatchWithRetry batch respond maxRetries retryDelay).result
        = some { success := false, batchId := batch.id, error := some e.message,
                 attempts := k, isFatal := true, shouldStopProcessing := true } ∧
    (processBatchWithRetry batch respond maxRetries retryDelay).calls = List.range' 1 k ∧
    (processBatchWithRetry batch respond maxRetries retryDelay).waits.length = k - 1 := by
  have hres := retryLoop_fatal batch.id respond maxRetries retryDelay k e hs hf maxRetries 1
    none [] [] (by omega) le_rfl hk1 hkm hpre
  obtain ⟨hw, hc, -, -, -⟩ := retryLoop_trace_shape batch.id respond maxRetries retryDelay
    maxRetries 1 none [] [] (by omega) le_rfl _ hres
  refine ⟨hres, ?_, ?_⟩
  · unfold processBatchWithRetry
    rw [hc]
    simp
  · unfold processBatchWithRetry
    rw [hw]
    simp

/-- Witness for C7: `QuotaExceeded` on the first attempt yields
`Failed{fatal: true, attemptsUsed: 1}` with one call and no backoff wait. -/
theorem fatal_error_returns_immediately_witness :
    (processBatchWithRetry retryDemoBatch
        (fun _ => CallOutcome.err (handleGeminiError "QUOTA_EXCEEDED")) 3 2000).result
      = some { success := false, batchId := 1,
               error := some "Cuota de la API de Gemini excedida",
               attempts := 1, isFatal := true, shouldStopProcessing := true } ∧
    (processBatchWithRetry retryDemoBatch
        (fun _ => CallOutcome.err (handleGeminiError "QUOTA_EXCEEDED")) 3 2000).calls = [1] ∧
    (processBatchWithRetry retryDemoBatch
        (fun _ => CallOutcome.err (handleGeminiError "QUOTA_EXCEEDED")) 3 2000).waits.length
      = 0 := by
  have h := fatal_error_returns_immediately retryDemoBatch
    (fun _ => CallOutcome.err (handleGeminiError "QUOTA_EXCEEDED")) 3 2000 1
    (handleGeminiError "QUOTA_EXCEEDED") (by decide) (by decide)
    (fun i h1 h2 => absurd h2 (by omega)) rfl (by decide)
  exact ⟨h.1.trans (by decide), h.2.1.trans (by decide), h.2.2⟩

/-- If every attempt fails with the same non-stop error, the loop exhausts
all attempts and reports that error with `attempts = maxRetries`. -/
theorem retryLoop_exhaust (batchId : Int) (respond : Nat → CallOutcome)
    (maxRetries retryDelay : Nat) (e : JsError) (hs : e.shouldStop = false)
    (hall : ∀ i, 1 ≤ i → i ≤ maxRetries → respond i = CallOutcome.err e) :
    ∀ m a lastError waits calls, a + m = maxRetries + 1 → 1 ≤ a →
      (m = 0 → lastError = some e) →
      (retryLoop batchId respond maxRetries retryDelay (List.range' a m)
          lastError waits calls).result
        = some { success := false, batchId := batchId, error := some e.message,
                 attempts := maxRetries, isFatal := e.isFatal,
                 shouldStopProcessing := false } := by
  intro m
  induction m with
  | zero =>
    intro a lastError waits calls hm h1 hlast
    rw [hlast rfl]
    simp [retryLoop, hs]
  | succ m ih =>
    intro a lastError waits calls hm h1 hlast
    rw [List.range'_succ]
    have hre := hall a h1 (by omega)
    by_cases hlt : a < maxRetries
    · simp only [retryLoop, hre, hs, Bool.false_eq_true, if_false, if_pos hlt]
      exact ih (a + 1) (some e) _ _ (by omega) (by omega) (fun _ => rfl)
    · simp only [retryLoop, hre, hs, Bool.false_eq_true, if_false, if_neg hlt]
      exact ih (a + 1) (some e) _ _ (by omega) (by omega) (fun _ => rfl)

/-! ## Scheduler: `processBatchesConcurrently` -/

/-- The failure record that the dead skipped-marking branch of the
scheduler would push for a batch reached after a fatal halt. -/
def skippedResult (b : JsBatch) : BatchResult :=
  { success := false, batchId := b.id,
    error := some "Procesamiento detenido por error fatal anterior",
    attempts := 0, skipped := true }

/-- The record returned by `processBatchesConcurrently`, plus a ghost log
`invoked` of the batch ids for which the executor was actually invoked. -/
structure SchedOutcome where
  successful : List BatchResult
  failed : List BatchResult
  stoppedEarly : Bool
  fatalError : Option String
  invoked : List Int
deriving Repr, DecidableEq

/-- The `for (const batch of batches)` loop of
`processBatchesConcurrently`: if the halt flag is set, push a skipped
record and continue (this branch is unreachable, see below); otherwise run
the executor, collect the result, and on a `shouldStopProcessing` failure
set the flag, record the fatal error and `break` — returning at once, so
the remaining batches are never visited. -/
def schedGo (exec : JsBatch → BatchResult) :
    List JsBatch → List BatchResult → List BatchResult → Bool → Option String → List Int →
      SchedOutcome
  | [], successful, failed, stoppedEarly, fatalError, invoked =>
    { successful := successful, failed := failed, stoppedEarly := stoppedEarly,
      fatalError := fatalError, invoked := invoked }
  | b :: rest, successful, failed, stoppedEarly, fatalError, invoked =>
    if stoppedEarly then
      schedGo exec rest successful (failed ++ [skippedResult b]) stoppedEarly fatalError invoked
    else
      let r := exec b
      if r.success then
        schedGo exec rest (successful ++ [r]) failed stoppedEarly fatalError (invoked ++ [b.id])
      else if r.shouldStopProcessing then
        { successful := successful, failed := failed ++ [r], stoppedEarly := true,
          fatalError := r.error, invoked := invoked ++ [b.id] }
      else
        schedGo exec rest successful (failed ++ [r]) stoppedEarly fatalError (invoked ++ [b.id])

/-- `processBatchesConcurrently` from `batchProcessor.js`.  Despite its
name, the source awaits each `limit(...)` call before dispatching the next
batch, so execution is sequential; `exec` abstracts one
`processBatchWithRetry` run per batch.  Because the fatal path `break`s,
the `stoppedEarly` skipped-marking branch of the loop can never run: no
iteration is ever entered with the flag already set. -/
def processBatchesConcurrently (exec : JsBatch → BatchResult) (batches : List JsBatch) :
    SchedOutcome :=
  schedGo exec batches [] [] false none []

/-- C2 (amended): a rate-limit error signal (`RATE_LIMIT_EXCEEDED` /
HTTP 429) is classified fatal (`shouldStop`) and halts the run at the
attempt where it occurs; the remaining transient classes — content filter,
malformed/mismatched response, transient server fault — are retried up to
`maxRetries` attempts, after which the batch is recorded as a failed
(non-fatal) batch and the run continues with the next batch rather than
halting. -/
theorem transient_retried_but_rate_limit_fatal (e : JsError) (he : e.shouldStop = false)
    (b : JsBatch) (maxRetries retryDelay : Nat) (hm : 1 ≤ maxRetries) :
    (handleGeminiError "RATE_LIMIT_EXCEEDED").shouldStop = true ∧
    (handleGeminiError "HTTP 429 too many requests").shouldStop = true ∧
    (handleGeminiError "CONTENT_FILTER").shouldStop = false ∧
    (handleGeminiError "INTERNAL").shouldStop = false ∧
    (handleGeminiError "Faltan las siguientes claves en la respuesta: Beef").shouldStop
      = false ∧
    (processBatchWithRetry b (fun _ => CallOutcome.err e) maxRetries retryDelay).result
      = some { success := false, batchId := b.id, error := some e.message,
               attempts := maxRetries, isFatal := e.isFatal,
               shouldStopProcessing := false } ∧
    (processBatchWithRetry b (fun _ => CallOutcome.err e) maxRetries retryDelay).calls
      = List.range' 1 maxRetries ∧
    (∀ exec : JsBatch → BatchResult, ∀ b2 : JsBatch,
      (exec b).success = false → (exec b).shouldStopProcessing = false →
      (processBatchesConcurrently exec [b, b2]).invoked = [b.id, b2.id] ∧
      exec b ∈ (processBatchesConcurrently exec [b, b2]).failed) := by
  have hres : (processBatchWithRetry b (fun _ => CallOutcome.err e)
      maxRetries retryDelay).result
      = some { success := false, batchId := b.id, error := some e.message,
               attempts := maxRetries, isFatal := e.isFatal,
               shouldStopProcessing := false } := by
    unfold processBatchWithRetry
    exact retryLoop_exhaust b.id (fun _ => CallOutcome.err e) maxRetries retryDelay e he
      (fun i _ _ => rfl) maxRetries 1 none [] [] (by omega) le_rfl
      (fun h0 => absurd h0 (by omega))
  obtain ⟨-, hc, -, -, -⟩ := retryLoop_trace_shape b.id (fun _ => CallOutcome.err e)
    maxRetries retryDelay maxRetries 1 none [] [] (by omega) le_rfl _ hres
  refine ⟨by decide, by decide, by decide, by decide, by decide, hres, ?_, ?_⟩
  · unfold processBatchWithRetry
    rw [hc]
    simp
  · intro exec b2 hs1 hs2
    by_cases h2s : (exec b2).success = true
    · exact ⟨by simp [processBatchesConcurrently, schedGo, hs1, hs2, h2s],
        by simp [processBatchesConcurrently, schedGo, hs1, hs2, h2s]⟩
    · by_cases h2f : (exec b2).shouldStopProcessing = true
      · exact ⟨by simp [processBatchesConcurrently, schedGo, hs1, hs2, h2s, h2f],
          by simp [processBatchesConcurrently, schedGo, hs1, hs2, h2s, h2f]⟩
      · exact ⟨by simp [processBatchesConcurrently, schedGo, hs1, hs2, h2s, h2f],
          by simp [processBatchesConcurrently, schedGo, hs1, hs2, h2s, h2f]⟩

/-- Second batch used by the scheduler continuation scenarios. -/
def continueDemoBatch2 : JsBatch :=
  { id := 2, data := [("Pork", JsValue.str "")], entriesCount := 1,
    startIndex := 1, endIndex := 1 }

/-- Executor where batch 1 always hits the content filter and every other
batch translates successfully. -/
def continueDemoExec (b : JsBatch) : BatchResult :=
  (processBatchWithRetry b
      (fun _ =>
        if b.id = 1 then CallOutcome.err (handleGeminiError "CONTENT_FILTER")
        else CallOutcome.ok (b.data.map (fun kv => (kv.1, "es")))) 3 2000).result.getD
    (skippedResult b)

/-- Witness for C2's amended statement: a content-filter error is retried
3 times, recorded as a non-fatal failed batch, and the run continues to
invoke the executor for the next batch. -/
theorem transient_retried_but_rate_limit_fatal_witness :
    (processBatchWithRetry retryDemoBatch
        (fun _ => CallOutcome.err (handleGeminiError "CONTENT_FILTER")) 3 2000).result
      = some { success := false, batchId := 1,
               error := some "Contenido bloqueado por los filtros de seguridad de Gemini",
               attempts := 3, isFatal := false, shouldStopProcessing := false } ∧
    (processBatchesConcurrently continueDemoExec [retryDemoBatch, continueDemoBatch2]).invoked
      = [1, 2] := by
  obtain ⟨-, -, -, -, -, hres, -, hsched⟩ := transient_retried_but_rate_limit_fatal
    (handleGeminiError "CONTENT_FILTER") (by decide) retryDemoBatch 3 2000 (by decide)
  have h2 := hsched continueDemoExec continueDemoBatch2 (by decide) (by decide)
  exact ⟨hres.trans (by decide), h2.1.trans (by decide)⟩

/-- Executor where batch 1 always hits a rate-limit error and every other
batch translates successfully. -/
def rateLimitDemoExec (b : JsBatch) : BatchResult :=
  (processBatchWithRetry b
      (fun _ =>
        if b.id = 1 then CallOutcome.err (handleGeminiError "RATE_LIMIT_EXCEEDED")
        else CallOutcome.ok (b.data.map (fun kv => (kv.1, "es")))) 3 2000).result.getD
    (skippedResult b)

/-- C2 counterexample: a batch whose remote call fails with a
rate-limit error signal is *not* retried up to `maxRetries` and the run
does *not* continue: with `maxRetries = 3` the executor returns after
attempt 1 with a fatal result (`attempts = 1`, only one call made), and
the scheduler halts — the next batch's executor is never invoked. -/
theorem rate_limit_not_retried_counterexample :
    (processBatchWithRetry retryDemoBatch
        (fun _ => CallOutcome.err (handleGeminiError "RATE_LIMIT_EXCEEDED")) 3 2000).result
      = some { success := false, batchId := 1,
               error := some "Límite de tasa excedido en la API de Gemini",
               attempts := 1, isFatal := true, shouldStopProcessing := true } ∧
    (processBatchWithRetry retryDemoBatch
        (fun _ => CallOutcome.err (handleGeminiError "RATE_LIMIT_EXCEEDED")) 3 2000).calls
      = [1] ∧
    (processBatchesConcurrently rateLimitDemoExec
        [retryDemoBatch, continueDemoBatch2]).stoppedEarly = true ∧
    (processBatchesConcurrently rateLimitDemoExec
        [retryDemoBatch, continueDemoBatch2]).invoked = [1] := by
  decide

/-- Six untranslated entries; with `batchSize = 2` the Batcher produces
batches 1, 2, 3. -/
def haltDemoEntries : List (String × JsValue) :=
  [("k1", JsValue.str ""), ("k2", JsValue.str ""), ("k3", JsValue.str ""),
   ("k4", JsValue.str ""), ("k5", JsValue.str ""), ("k6", JsValue.str "")]

/-- The batches `createBatches(haltDemoEntries, 2)` produces. -/
def haltDemoBatches : List JsBatch := (createBatchesFuel 6 haltDemoEntries 2).getD []

/-- Executor where batch 2 always hits `QUOTA_EXCEEDED` (fatal) and every
other batch translates successfully. -/
def haltDemoExec (b : JsBatch) : BatchResult :=
  (processBatchWithRetry b
      (fun _ =>
        if b.id = 2 then CallOutcome.err (handleGeminiError "QUOTA_EXCEEDED")
        else CallOutcome.ok (b.data.map (fun kv => (kv.1, "es")))) 3 2000).result.getD
    (skippedResult b)

/-- C1 (code bug): the batcher produces batches 1, 2, 3; batch 2 hits
a fatal quota error.  The scheduler preserves batch 1's successful
outcome, records batch 2's fatal failure, sets `stoppedEarly` with the
fatal error, and never invokes the executor for batch 3 — but, because
the fatal path `break`s before the skipped-marking branch can ever run,
batch 3 receives *no* outcome at all: it is absent from both the
successful and the failed/skipped outcome lists, so the outcome set does
not cover every batch once. -/
theorem fatal_halt_drops_remaining_batches :
    haltDemoBatches.map JsBatch.id = [1, 2, 3] ∧
    (processBatchesConcurrently haltDemoExec haltDemoBatches).successful.map
        BatchResult.batchId = [1] ∧
    (processBatchesConcurrently haltDemoExec haltDemoBatches).failed.map
        BatchResult.batchId = [2] ∧
    (processBatchesConcurrently haltDemoExec haltDemoBatches).stoppedEarly = true ∧
    (processBatchesConcurrently haltDemoExec haltDemoBatches).fatalError
      = some "Cuota de la API de Gemini excedida" ∧
    (processBatchesConcurrently haltDemoExec haltDemoBatches).invoked = [1, 2] ∧
    ((processBatchesConcurrently haltDemoExec haltDemoBatches).successful.map
          BatchResult.batchId ++
        (processBatchesConcurrently haltDemoExec haltDemoBatches).failed.map
          BatchResult.batchId).contains 3 = false := by
  decide

/-! ## RateLimiter: `canMakeRequest` / `calculateWaitTime` -/

/-- The per-model limits object; only the `rpm` ceiling is read by the
window logic (`rpm = 0` is falsy in the source, meaning "no ceiling"). -/
structure RpmLimits where
  rpm : Nat
deriving Repr, DecidableEq

/-- The module-global `rateLimiter` state: recorded request timestamps (ms)
and the configured limits (`none` until initialized). -/
structure RateLimiterState where
  requests : List Int
  limits : Option RpmLimits
deriving Repr, DecidableEq

/-- The timestamps lying in the trailing 60-second window at time `now`
(the `timestamp > oneMinuteAgo` filter). -/
def windowRequests (st : RateLimiterState) (now : Int) : List Int :=
  st.requests.filter (fun t => now - 60000 < t)

/-- `canMakeRequest` from `batchProcessor.js`: permit when no limits (or a
falsy `rpm`) are configured; otherwise prune the window in place and
compare its size against the `rpm` ceiling.  Returns the boolean together
with the mutated state. -/
def canMakeRequest (st : RateLimiterState) (now : Int) : Bool × RateLimiterState :=
  match st.limits with
  | none => (true, st)
  | some l =>
    if l.rpm = 0 then (true, st)
    else
      (((windowRequests st now).length < l.rpm : Bool),
        { st with requests := windowRequests st now })

/-- `calculateWaitTime` from `batchProcessor.js`: 0 when no ceiling is
configured or fewer than `rpm` requests are in the trailing window;
otherwise the time until the oldest windowed timestamp ages out plus a
fixed 100 ms safety buffer, clamped at 0. -/
def calculateWaitTime (st : RateLimiterState) (now : Int) : Int × RateLimiterState :=
  match st.limits with
  | none => (0, st)
  | some l =>
    if l.rpm = 0 then (0, st)
    else
      if (windowRequests st now).length = 0 then
        (0, { st with requests := windowRequests st now })
      else if (windowRequests st now).length < l.rpm then
        (0, { st with requests := windowRequests st now })
      else
        (max 0 (((windowRequests st now).min?.getD 0) + 60000 - now + 100),
          { st with requests := windowRequests st now })

/-- C8. For every rate-limiter state and time: with no ceiling
configured (no limits, or a falsy `rpm` of 0) `calculateWaitTime` is
always 0 and `canMakeRequest` always true; with a ceiling `R > 0`,
`calculateWaitTime` is 0 whenever fewer than `R` recorded timestamps lie
in the trailing 60-second window, and otherwise equals the time until the
oldest windowed timestamp ages out of the window plus the fixed 100 ms
safety margin (in particular the oldest timestamp has aged out once that
wait elapses). -/
theorem rate_limiter_wait_time (st : RateLimiterState) (now : Int) :
    ((st.limits = none ∨ st.limits = some ⟨0⟩) →
      (calculateWaitTime st now).1 = 0 ∧ (canMakeRequest st now).1 = true) ∧
    (∀ l, st.limits = some l → 0 < l.rpm →
      (windowRequests st now).length < l.rpm → (calculateWaitTime st now).1 = 0) ∧
    (∀ l, st.limits = some l → 0 < l.rpm →
      l.rpm ≤ (windowRequests st now).length →
      ∃ oldest, (windowRequests st now).min? = some oldest ∧
        (calculateWaitTime st now).1 = (oldest + 60000 - now) + 100 ∧
        now - 60000 < oldest ∧
        oldest + 60000 - (now + (calculateWaitTime st now).1) < 0) := by
  refine ⟨?_, ?_, ?_⟩
  · rintro (h | h)
    · simp [calculateWaitTime, canMakeRequest, h]
    · simp [calculateWaitTime, canMakeRequest, h]
  · intro l hl hrpm hlen
    simp only [calculateWaitTime, hl]
    rw [if_neg (by omega)]
    by_cases h0 : (windowRequests st now).length = 0
    · rw [if_pos h0]
    · rw [if_neg h0, if_pos hlen]
  · intro l hl hrpm hlen
    have hne : windowRequests st now ≠ [] := by
      intro h
      rw [h] at hlen
      simp at hlen
      omega
    obtain ⟨oldest, hmin⟩ : ∃ o, (windowRequests st now).min? = some o := by
      cases hmo : (windowRequests st now).min? with
      | none => exact absurd (List.min?_eq_none_iff.mp hmo) hne
      | some o => exact ⟨o, rfl⟩
    have hmem : oldest ∈ windowRequests st now :=
      List.min?_mem (fun a b => min_choice a b) hmin
    have hgt : now - 60000 < oldest := by
      have := (List.mem_filter.mp hmem).2
      simpa using this
    have hval : (calculateWaitTime st now).1 = (oldest + 60000 - now) + 100 := by
      simp only [calculateWaitTime, hl]
      rw [if_neg (by omega), if_neg (by omega), if_neg (by omega), hmin]
      simp only [Option.getD_some]
      rw [max_eq_right (by omega)]
    exact ⟨oldest, hmin, hval, hgt, by omega⟩

/-- A window state at the ceiling: `rpm = 2`, two requests recorded inside
the trailing minute. -/
def rateDemoState : RateLimiterState :=
  { requests := [50000, 60000], limits := some ⟨2⟩ }

/-- The same window with no ceiling configured. -/
def rateDemoNoLimit : RateLimiterState :=
  { requests := [50000, 60000], limits := none }

/-- Witness for C8: at `now = 100000` the full window forces a wait of
`50000 + 60000 - 100000 + 100 = 10100` ms; with no ceiling the wait is 0
and `canMakeRequest` is true. -/
theorem rate_limiter_wait_time_witness :
    (calculateWaitTime rateDemoState 100000).1 = 10100 ∧
    (calculateWaitTime rateDemoNoLimit 100000).1 = 0 ∧
    (canMakeRequest rateDemoNoLimit 100000).1 = true := by
  obtain ⟨-, -, h3⟩ := rate_limiter_wait_time rateDemoState 100000
  obtain ⟨oldest, hmin, heq, -, -⟩ := h3 ⟨2⟩ rfl (by decide) (by decide)
  obtain ⟨hfree, -⟩ := (rate_limiter_wait_time rateDemoNoLimit 100000).1 (Or.inl rfl)
  obtain ⟨-, hcan⟩ := (rate_limiter_wait_time rateDemoNoLimit 100000).1 (Or.inl rfl)
  have ho : (50000 : Int) = oldest := by
    have hcomp : (windowRequests rateDemoState 100000).min? = some 50000 := by decide
    rw [hcomp] at hmin
    exact Option.some_inj.mp hmin
  refine ⟨?_, hfree, hcan⟩
  rw [heq]
  omega

/-! ## Response validation: `validateAndParseResponse` -/

/-- Successful validation output: the filtered mapping plus the keys that
only produced `console.warn` signals (extra keys dropped, blank
translations). -/
structure ValidationOutput where
  mapping : List (String × String)
  extraWarned : List String
  emptyWarned : List String
deriving Repr, DecidableEq

/-- The input-batch keys absent from the parsed response. -/
def missingKeys (parsed originalBatch : List (String × JsValue)) : List String :=
  (originalBatch.map Prod.fst).filter (fun k => !(parsed.map Prod.fst).contains k)

/-- The response keys absent from the input batch (warned about and
dropped, never a failure). -/
def extraKeys (parsed originalBatch : List (String × JsValue)) : List String :=
  (parsed.map Prod.fst).filter (fun k => !(originalBatch.map Prod.fst).contains k)

/-- `filteredResponse`: the parsed response restricted to the input-batch
keys, in input-key order. -/
def filteredResponse (parsed originalBatch : List (String × JsValue)) :
    List (String × JsValue) :=
  (originalBatch.map Prod.fst).map (fun k => (k, (parsed.lookup k).getD JsValue.undefined))

/-- The value-check loop of `validateAndParseResponse`: throw at the first
retained value that is not a string; warn on (and keep) blank strings. -/
def checkValues :
    List (String × JsValue) → Except String (List (String × String) × List String)
  | [] => Except.ok ([], [])
  | (k, v) :: rest =>
    match v with
    | JsValue.str s =>
      match checkValues rest with
      | Except.error m => Except.error m
      | Except.ok (m, w) =>
        Except.ok ((k, s) :: m, if s.trim = "" then k :: w else w)
    | _ => Except.error ("El valor para la clave " ++ k ++ " no es un string")

/-- The key/value validation of `validateAndParseResponse` from
`geminiTranslator.js`, starting from the already-parsed top-level object
(`JSON.parse` and the fenced-code-block stripping are the parsing front
end; `MalformedResponse` failures happen there): fail when any input-batch
key is missing from the response; warn on and drop keys not in the input
batch; restrict to the input keys; fail when a retained value is not a
string. -/
def validateParsedResponse (parsed originalBatch : List (String × JsValue)) :
    Except String ValidationOutput :=
  if missingKeys parsed originalBatch ≠ [] then
    Except.error ("Faltan las siguientes claves en la respuesta: "
      ++ String.intercalate ", " (missingKeys parsed originalBatch))
  else
    match checkValues (filteredResponse parsed originalBatch) with
    | Except.error m => Except.error m
    | Except.ok (m, w) =>
      Except.ok { mapping := m, extraWarned := extraKeys parsed originalBatch,
                  emptyWarned := w }

theorem checkValues_ok_fst {l : List (String × JsValue)}
    {m : List (String × String)} {w : List String} (h : checkValues l = Except.ok (m, w)) :
    m.map Prod.fst = l.map Prod.fst := by
  induction l generalizing m w with
  | nil =>
    simp only [checkValues, Except.ok.injEq, Prod.mk.injEq] at h
    rw [← h.1]
    rfl
  | cons p rest ih =>
    obtain ⟨k, v⟩ := p
    cases v with
    | str s =>
      simp only [checkValues] at h
      cases hr : checkValues rest with
      | error m' => rw [hr] at h; exact absurd h (by simp)
      | ok p' =>
        obtain ⟨m', w'⟩ := p'
        rw [hr] at h
        simp only [Except.ok.injEq, Prod.mk.injEq] at h
        rw [← h.1]
        simpa using ih hr
    | null => exact absurd h (by simp [checkValues])
    | undefined => exact absurd h (by simp [checkValues])
    | miscVal => exact absurd h (by simp [checkValues])

theorem checkValues_ok_of_all_str {l : List (String × JsValue)}
    (h : ∀ kv ∈ l, ∃ s, kv.2 = JsValue.str s) :
    ∃ m w, checkValues l = Except.ok (m, w) := by
  induction l with
  | nil => exact ⟨[], [], rfl⟩
  | cons p rest ih =>
    obtain ⟨k, v⟩ := p
    obtain ⟨s, hs⟩ := h (k, v) (List.mem_cons_self _ _)
    obtain ⟨m, w, hmw⟩ := ih (fun kv hkv => h kv (List.mem_cons_of_mem _ hkv))
    subst hs
    refine ⟨(k, s) :: m, if s.trim = "" then k :: w else w, ?_⟩
    simp [checkValues, hmw]

theorem checkValues_error_of_non_str {l : List (String × JsValue)}
    {k : String} {v : JsValue} (hmem : (k, v) ∈ l) (hv : ∀ s, v ≠ JsValue.str s) :
    ∃ m, checkValues l = Except.error m := by
  induction l with
  | nil => exact absurd hmem (List.not_mem_nil _)
  | cons p rest ih =>
    obtain ⟨k', v'⟩ := p
    rcases List.mem_cons.mp hmem with hhd | htl
    · obtain ⟨rfl, rfl⟩ := Prod.mk.injEq .. ▸ hhd
      cases v with
      | str s => exact absurd rfl (hv s)
      | null => exact ⟨_, rfl⟩
      | undefined => exact ⟨_, rfl⟩
      | miscVal => exact ⟨_, rfl⟩
    · cases v' with
      | str s =>
        obtain ⟨m, hm⟩ := ih htl
        exact ⟨m, by simp [checkValues, hm]⟩
      | null => exact ⟨_, rfl⟩
      | undefined => exact ⟨_, rfl⟩
      | miscVal => exact ⟨_, rfl⟩

theorem lookup_isSome_iff_mem_fst (l : List (String × JsValue)) (k : String) :
    (l.lookup k).isSome = true ↔ k ∈ l.map Prod.fst := by
  induction l with
  | nil => simp
  | cons p rest ih =>
    obtain ⟨k', v'⟩ := p
    by_cases h : k = k'
    · subst h
      simp [List.lookup]
    · have hbeq : (k == k') = false := beq_eq_false_iff_ne.mpr h
      simp only [List.lookup, hbeq, List.map_cons, List.mem_cons]
      rw [ih]
      simp [h]

/-- C9. For every input batch and parsed response object: validation
fails if any input key is absent from the response; it fails if any
retained value (a response value at an input key) is not a string; when
every input key is present with a string value it succeeds regardless of
extra keys, which are dropped into the warning list rather than failing;
and every successful mapping has exactly the input batch's key sequence. -/
theorem response_validation_contract (parsed originalBatch : List (String × JsValue)) :
    ((∃ k, k ∈ originalBatch.map Prod.fst ∧ k ∉ parsed.map Prod.fst) →
      ∃ m, validateParsedResponse parsed originalBatch = Except.error m) ∧
    ((∃ k v, k ∈ originalBatch.map Prod.fst ∧ parsed.lookup k = some v ∧
        (∀ s, v ≠ JsValue.str s)) →
      ∃ m, validateParsedResponse parsed originalBatch = Except.error m) ∧
    ((∀ k, k ∈ originalBatch.map Prod.fst → ∃ s, parsed.lookup k = some (JsValue.str s)) →
      ∃ out, validateParsedResponse parsed originalBatch = Except.ok out ∧
        out.extraWarned = extraKeys parsed originalBatch) ∧
    (∀ out, validateParsedResponse parsed originalBatch = Except.ok out →
      out.mapping.map Prod.fst = originalBatch.map Prod.fst) := by
  refine ⟨?_, ?_, ?_, ?_⟩
  · rintro ⟨k, hk, hnk⟩
    have hmem : k ∈ missingKeys parsed originalBatch := by
      simp [missingKeys, List.mem_filter, hk, hnk]
    have hne : missingKeys parsed originalBatch ≠ [] := by
      intro h
      rw [h] at hmem
      exact List.not_mem_nil _ hmem
    refine ⟨"Faltan las siguientes claves en la respuesta: "
      ++ String.intercalate ", " (missingKeys parsed originalBatch), ?_⟩
    simp [validateParsedResponse, hne]
  · rintro ⟨k, v, hk, hlook, hv⟩
    by_cases hmiss : missingKeys parsed originalBatch ≠ []
    · refine ⟨"Faltan las siguientes claves en la respuesta: "
        ++ String.intercalate ", " (missingKeys parsed originalBatch), ?_⟩
      simp [validateParsedResponse, hmiss]
    · have hmemf : (k, v) ∈ filteredResponse parsed originalBatch := by
        have hstep := List.mem_map_of_mem
          (fun k => (k, (parsed.lookup k).getD JsValue.undefined)) hk
        rw [filteredResponse]
        simpa [hlook] using hstep
      obtain ⟨m, hm⟩ := checkValues_error_of_non_str hmemf hv
      refine ⟨m, ?_⟩
      simp [validateParsedResponse, hmiss, hm]
  · intro hall
    have hmiss : missingKeys parsed originalBatch = [] := by
      simp only [missingKeys, List.filter_eq_nil_iff]
      intro k hk
      obtain ⟨s, hs⟩ := hall k hk
      have hsome : (parsed.lookup k).isSome = true := by rw [hs]; rfl
      have hmem := (lookup_isSome_iff_mem_fst parsed k).mp hsome
      simp [hmem]
    have hstrs : ∀ kv ∈ filteredResponse parsed originalBatch,
        ∃ s, kv.2 = JsValue.str s := by
      intro kv hkv
      rw [filteredResponse] at hkv
      obtain ⟨k, hk, rfl⟩ := List.mem_map.mp hkv
      obtain ⟨s, hs⟩ := hall k hk
      exact ⟨s, by simp [hs]⟩
    obtain ⟨m, w, hmw⟩ := checkValues_ok_of_all_str hstrs
    refine ⟨{ mapping := m, extraWarned := extraKeys parsed originalBatch,
              emptyWarned := w }, ?_, rfl⟩
    simp [validateParsedResponse, hmiss, hmw]
  · intro out hout
    by_cases hmiss : missingKeys parsed originalBatch ≠ []
    · rw [validateParsedResponse, if_pos hmiss] at hout
      exact absurd hout (by simp)
    · rw [validateParsedResponse, if_neg hmiss] at hout
      cases hcv : checkValues (filteredResponse parsed originalBatch) with
      | error m =>
        rw [hcv] at hout
        exact absurd hout (by simp)
      | ok p =>
        obtain ⟨m, w⟩ := p
        rw [hcv] at hout
        simp only [Except.ok.injEq] at hout
        rw [← hout]
        have hfst := checkValues_ok_fst hcv
        simp only [ValidationOutput.mapping]
        rw [hfst]
        simp [filteredResponse]

/-- Witness for C9 at concrete inputs: an extra key is dropped with only a
warning and the mapping keeps exactly the batch's keys; a missing key
fails; a retained non-string value fails. -/
theorem response_validation_contract_witness :
    (∃ out, validateParsedResponse
        [("Beef", JsValue.str "Res"), ("Extra", JsValue.str "x"),
         ("Pork", JsValue.str "Cerdo")]
        [("Beef", JsValue.str ""), ("Pork", JsValue.str "")] = Except.ok out ∧
      out.extraWarned = ["Extra"]) ∧
    (∃ m, validateParsedResponse [("Beef", JsValue.str "Res")]
        [("Beef", JsValue.str ""), ("Pork", JsValue.str "")] = Except.error m) ∧
    (∃ m, validateParsedResponse
        [("Beef", JsValue.null), ("Pork", JsValue.str "Cerdo")]
        [("Beef", JsValue.str ""), ("Pork", JsValue.str "")] = Except.error m) := by
  refine ⟨?_, ?_, ?_⟩
  · have hall : ∀ k, k ∈ ([("Beef", JsValue.str ""), ("Pork", JsValue.str "")].map
        Prod.fst) →
        ∃ s, ([("Beef", JsValue.str "Res"), ("Extra", JsValue.str "x"),
          ("Pork", JsValue.str "Cerdo")].lookup k) = some (JsValue.str s) := by
      intro k hk
      simp only [List.map_cons, List.map_nil, List.mem_cons, List.not_mem_nil,
        or_false] at hk
      rcases hk with rfl | rfl
      · exact ⟨"Res", rfl⟩
      · exact ⟨"Cerdo", rfl⟩
    obtain ⟨out, hout, hex⟩ := (response_validation_contract
      [("Beef", JsValue.str "Res"), ("Extra", JsValue.str "x"),
       ("Pork", JsValue.str "Cerdo")]
      [("Beef", JsValue.str ""), ("Pork", JsValue.str "")]).2.2.1 hall
    exact ⟨out, hout, hex.trans (by decide)⟩
  · exact (response_validation_contract [("Beef", JsValue.str "Res")]
      [("Beef", JsValue.str ""), ("Pork", JsValue.str "")]).1
      ⟨"Pork", by decide, by decide⟩
  · exact (response_validation_contract
      [("Beef", JsValue.null), ("Pork", JsValue.str "Cerdo")]
      [("Beef", JsValue.str ""), ("Pork", JsValue.str "")]).2.1
      ⟨"Beef", JsValue.null, by decide, rfl, fun s h => JsValue.noConfusion h⟩

/-- Witness for C5 at the spec's scenario input
`{"A": "", "B": "ya", "C": ""}` with `skipTranslated = true` and an
always-false exclusion predicate. -/
theorem classifier_total_partition_witness :
    ((filterEntriesForTranslation (fun _ => false) true true
        [("A", JsValue.str ""), ("B", JsValue.str "ya"), ("C", JsValue.str "")]).excludedByKey ++
      (filterEntriesForTranslation (fun _ => false) true true
        [("A", JsValue.str ""), ("B", JsValue.str "ya"), ("C", JsValue.str "")]).alreadyTranslated ++
      (filterEntriesForTranslation (fun _ => false) true true
        [("A", JsValue.str ""), ("B", JsValue.str "ya"), ("C", JsValue.str "")]).toTranslate).Perm
      [("A", JsValue.str ""), ("B", JsValue.str "ya"), ("C", JsValue.str "")] ∧
    ExactlyOneOf
      (("A", JsValue.str "") ∈ (filterEntriesForTranslation (fun _ => false) true true
        [("A", JsValue.str ""), ("B", JsValue.str "ya"), ("C", JsValue.str "")]).toTranslate)
      (("A", JsValue.str "") ∈ (filterEntriesForTranslation (fun _ => false) true true
        [("A", JsValue.str ""), ("B", JsValue.str "ya"), ("C", JsValue.str "")]).alreadyTranslated)
      (("A", JsValue.str "") ∈ (filterEntriesForTranslation (fun _ => false) true true
        [("A", JsValue.str ""), ("B", JsValue.str "ya"), ("C", JsValue.str "")]).excludedByKey) := by
  have h := classifier_total_partition (fun _ => false) true true
    [("A", JsValue.str ""), ("B", JsValue.str "ya"), ("C", JsValue.str "")]
  exact ⟨h.1, h.2.1 ("A", JsValue.str "") (by decide)⟩
